import Mathlib

/-!
A verification development for the simulation engine (`Model` class) of
`game_of_life.py`: a generalized Conway's Game of Life with optional toroidal
edge wrapping, a multi-level "trace" fade for recently-alive cells, dynamic
grid resizing, and direct cell edits.

Python integers are modelled by `Nat` for cell values and dimensions (all
reachable values are non-negative) and by `Int` for `population` (which the
code decrements) and for neighbor coordinates (which go negative at edges).
The in-place loops of the Python code are modelled as whole-grid rebuilds:
every such loop ranges over `range(num_rows) x range(num_cols)`, which covers
exactly the cells of a well-formed grid.
-/

namespace GameOfLife

/-- A grid of cell states: a list of rows, each a list of cell values
(`self.cell_states` in the source). -/
abbrev Grid := List (List Nat)

/-- Read `cell_states[row][col]`. Out-of-range reads default to `0`; the
source only ever indexes in range. -/
def getCell (g : Grid) (row col : Nat) : Nat :=
  (g.getD row []).getD col 0

/-- Write `cell_states[row][col] = v`. Out-of-range writes are a no-op; the
source only ever indexes in range. -/
def setCell (g : Grid) (row col : Nat) (v : Nat) : Grid :=
  g.set row ((g.getD row []).set col v)

/-- Number of cells of the grid holding exactly the value `ls`. -/
def liveCount (ls : Nat) (g : Grid) : Nat :=
  (g.map fun row => row.count ls).sum

/-- The state of the `Model` class: grid dimensions, the configured fully
alive value `live_state`, the `wrap` and `trace` flags, the cell grid, and
the bookkeeping fields `population` and `total_cells`. -/
structure Model where
  num_rows : Nat
  num_cols : Nat
  live_state : Nat
  wrap : Bool
  trace : Bool
  cell_states : Grid
  population : Int
  total_cells : Nat
deriving Repr, DecidableEq

/-- `Model.__init__`: an all-dead grid with `population = 0` and
`total_cells = num_rows * num_cols`. -/
def Model.init (num_rows num_cols live_state : Nat) (wrap trace : Bool) :
    Model where
  num_rows := num_rows
  num_cols := num_cols
  live_state := live_state
  wrap := wrap
  trace := trace
  cell_states := List.replicate num_rows (List.replicate num_cols 0)
  population := 0
  total_cells := num_rows * num_cols

/-- `Model.randomize`: each cell of the `range(num_rows) x range(num_cols)`
loop is set to `live_state` when its random bit is set, else to `0`, with
`population` incremented per set bit. The random source `getrandbits(1)` is
modelled by an oracle `bits` giving the draw at each loop position. -/
def Model.randomize (m : Model) (bits : Nat → Nat → Bool) : Model :=
  { m with
    cell_states := (List.range m.num_rows).map fun row =>
      (List.range m.num_cols).map fun col =>
        if bits row col then m.live_state else 0
    population :=
      (((List.range m.num_rows).map fun row =>
        (List.range m.num_cols).countP fun col => bits row col).sum : Int) }

/-- `Model.clear`: every cell of the loop is set to `0` and `population`
to `0`. -/
def Model.clear (m : Model) : Model :=
  { m with
    cell_states := m.cell_states.map fun row => row.map fun _ => 0
    population := 0 }

/-- The 8 Moore-neighborhood offsets, in the order of the nested
`for d_row in (-1, 0, 1): for d_col in (-1, 0, 1)` loops with `(0, 0)`
skipped. -/
def neighbor_offsets : List (Int × Int) :=
  [(-1, -1), (-1, 0), (-1, 1), (0, -1), (0, 1), (1, -1), (1, 0), (1, 1)]

/-- One axis of the neighbor lookup of `Model._count_live_neighbors`: an
in-range coordinate is used as is; an out-of-range one is skipped (`none`)
when `wrap` is false and reduced with Python's `%` (Euclidean `emod`,
non-negative for a positive modulus) when `wrap` is true. -/
def resolveAxis (wrap : Bool) (size : Nat) (x : Int) : Option Nat :=
  if 0 ≤ x ∧ x < (size : Int) then some x.toNat
  else if wrap then some (x.emod (size : Int)).toNat
  else none

/-- `Model._count_live_neighbors`: the number of the 8 offsets whose
row and column resolve (independently) to in-range coordinates and whose
resolved cell holds exactly `live_state`. -/
def Model.count_live_neighbors (m : Model) (row col : Nat) : Nat :=
  neighbor_offsets.countP fun d =>
    match resolveAxis m.wrap m.num_rows ((row : Int) + d.1),
          resolveAxis m.wrap m.num_cols ((col : Int) + d.2) with
    | some nr, some nc => getCell m.cell_states nr nc == m.live_state
    | _, _ => false

/-- The birth/survival condition of `Model.step` for the cell at
`(row, col)` of the pre-step grid:
`cell_state == live_state and 2 <= live_neighbors <= 3
 or cell_state < live_state and live_neighbors == 3`. -/
def Model.step_alive (m : Model) (row col : Nat) : Prop :=
  (getCell m.cell_states row col = m.live_state ∧
    2 ≤ m.count_live_neighbors row col ∧ m.count_live_neighbors row col ≤ 3) ∨
  (getCell m.cell_states row col < m.live_state ∧
    m.count_live_neighbors row col = 3)

instance (m : Model) (row col : Nat) : Decidable (m.step_alive row col) := by
  unfold Model.step_alive
  exact inferInstance

/-- The value `Model.step` writes into the output buffer at `(row, col)`:
`live_state` when the birth/survival condition holds, else the fade value
`max(cell_state - 1, 1)` when `trace` is on and the cell is nonzero, else
the buffer's initial `0`. -/
def Model.step_cell (m : Model) (row col : Nat) : Nat :=
  if m.step_alive row col then m.live_state
  else if m.trace ∧ getCell m.cell_states row col ≠ 0 then
    max (getCell m.cell_states row col - 1) 1
  else 0

/-- `Model.step`: builds a fresh buffer from the pre-step grid, counting
into `population` the cells set to `live_state` by the birth/survival
branch, then swaps the buffer in. -/
def Model.step (m : Model) : Model :=
  { m with
    cell_states := (List.range m.num_rows).map fun row =>
      (List.range m.num_cols).map fun col => m.step_cell row col
    population :=
      (((List.range m.num_rows).map fun row =>
        (List.range m.num_cols).countP fun col =>
          decide (m.step_alive row col)).sum : Int) }

/-- `Model.toggle_wrap`: a pure flag flip. -/
def Model.toggle_wrap (m : Model) : Model :=
  { m with wrap := !m.wrap }

/-- `Model.toggle_trace`: flips `trace`; when the new value is false, the
loop forces every cell with `cell_state < live_state` to `0`. -/
def Model.toggle_trace (m : Model) : Model :=
  if m.trace then
    { m with
      trace := false
      cell_states := m.cell_states.map fun row => row.map fun v =>
        if v < m.live_state then 0 else v }
  else
    { m with trace := true }

/-- The `# Adjust rows` phase of `Model.adjust_grid_size` on the grid and
the population: growing appends all-dead rows of width `old_num_cols`;
shrinking first scans every cell of the dropped rows (`drop new_num_rows`;
each row has width `old_num_cols`), decrementing the population per cell
equal to `live_state`, then truncates (`[:new_num_rows]`, i.e. `take`). -/
def adjustRows (ls old_num_rows old_num_cols new_num_rows : Nat)
    (g : Grid) (pop : Int) : Grid × Int :=
  if old_num_rows < new_num_rows then
    (g ++ List.replicate (new_num_rows - old_num_rows)
      (List.replicate old_num_cols 0), pop)
  else if new_num_rows < old_num_rows then
    (g.take new_num_rows,
     pop - (liveCount ls (g.drop new_num_rows) : Int))
  else (g, pop)

/-- The `# Adjust cols` phase of `Model.adjust_grid_size` on the grid and
the population, acting on every row of the row-adjusted grid (the Python
loops range over `range(new_num_rows)`, which for a well-formed input are
exactly the rows present after the row phase): growing extends each row
with dead cells; shrinking first scans the dropped entries of each row
(`row[col]` for `col` from `old_num_cols - 1` down to `new_num_cols`, i.e.
`row.drop new_num_cols` of a width-`old_num_cols` row), decrementing the
population per cell equal to `live_state`, then truncates each row. -/
def adjustCols (ls old_num_cols new_num_cols : Nat) (g : Grid)
    (pop : Int) : Grid × Int :=
  if old_num_cols < new_num_cols then
    (g.map fun row =>
      row ++ List.replicate (new_num_cols - old_num_cols) 0, pop)
  else if new_num_cols < old_num_cols then
    (g.map fun row => row.take new_num_cols,
     pop - (((g.map fun row =>
       (row.drop new_num_cols).count ls).sum : Nat) : Int))
  else (g, pop)

/-- `Model.adjust_grid_size`: the row phase, then the column phase, then
`total_cells = new_num_rows * new_num_cols`. -/
def Model.adjust_grid_size (m : Model) (new_num_rows new_num_cols : Nat) :
    Model :=
  let rowsAdjusted :=
    adjustRows m.live_state m.num_rows m.num_cols new_num_rows
      m.cell_states m.population
  let colsAdjusted :=
    adjustCols m.live_state m.num_cols new_num_cols
      rowsAdjusted.1 rowsAdjusted.2
  { m with
    num_rows := new_num_rows
    num_cols := new_num_cols
    cell_states := colsAdjusted.1
    population := colsAdjusted.2
    total_cells := new_num_rows * new_num_cols }

/-- One iteration of the `Model.set_cells_state` loop on a single
coordinate. -/
def Model.set_cell_state (m : Model) (row col : Nat) (state : Bool) :
    Model :=
  if state ∧ getCell m.cell_states row col ≠ m.live_state then
    { m with
      cell_states := setCell m.cell_states row col m.live_state
      population := m.population + 1 }
  else if ¬state ∧ getCell m.cell_states row col ≠ 0 then
    { m with
      cell_states := setCell m.cell_states row col 0
      population :=
        if getCell m.cell_states row col = m.live_state then
          m.population - 1
        else m.population }
  else m

/-- `Model.set_cells_state`: the loop over the given coordinates. -/
def Model.set_cells_state (m : Model) (cells : List (Nat × Nat))
    (state : Bool) : Model :=
  cells.foldl (fun acc rc => acc.set_cell_state rc.1 rc.2 state) m

/-- Structural well-formedness: the grid physically matches the recorded
dimensions and `total_cells` is their product. -/
def Model.WF (m : Model) : Prop :=
  m.cell_states.length = m.num_rows ∧
  (∀ row ∈ m.cell_states, row.length = m.num_cols) ∧
  m.total_cells = m.num_rows * m.num_cols

/-- Every cell value lies in `[0, live_state]` (the lower bound is the
`Nat` type). -/
def Model.CellsBounded (m : Model) : Prop :=
  ∀ row ∈ m.cell_states, ∀ v ∈ row, v ≤ m.live_state

/-- The engine invariant: well-formed, `population` equal to the number of
cells holding exactly `live_state`, all cell values in bounds, and the
configured `live_state > 1`. -/
def Model.Inv (m : Model) : Prop :=
  m.WF ∧
  m.population = (liveCount m.live_state m.cell_states : Int) ∧
  m.CellsBounded ∧
  1 < m.live_state

instance (m : Model) : Decidable m.WF := by
  unfold Model.WF
  exact inferInstance

instance (m : Model) : Decidable m.CellsBounded := by
  unfold Model.CellsBounded
  exact inferInstance

instance (m : Model) : Decidable m.Inv := by
  unfold Model.Inv
  exact inferInstance

/-- The engine operations an external driver may invoke after
construction. `randomize` carries its oracle of random draws. -/
inductive Op where
  | step : Op
  | randomize : (Nat → Nat → Bool) → Op
  | clear : Op
  | set_cells : List (Nat × Nat) → Bool → Op
  | toggle_wrap : Op
  | toggle_trace : Op
  | adjust : Nat → Nat → Op

/-- Apply one operation. -/
def Model.apply (m : Model) : Op → Model
  | .step => m.step
  | .randomize bits => m.randomize bits
  | .clear => m.clear
  | .set_cells cells state => m.set_cells_state cells state
  | .toggle_wrap => m.toggle_wrap
  | .toggle_trace => m.toggle_trace
  | .adjust r c => m.adjust_grid_size r c

/-- The caller contract: coordinates passed to `set_cells_state` are in
range of the current grid; every other operation is unconditionally
allowed. -/
def Op.Valid (m : Model) : Op → Prop
  | .set_cells cells _ => ∀ rc ∈ cells, rc.1 < m.num_rows ∧ rc.2 < m.num_cols
  | _ => True

/-- Run a sequence of operations. -/
def Model.applyAll (m : Model) : List Op → Model
  | [] => m
  | op :: ops => (m.apply op).applyAll ops

/-- Every operation of the sequence meets the caller contract in the state
it is invoked from. -/
def ValidOps (m : Model) : List Op → Prop
  | [] => True
  | op :: ops => op.Valid m ∧ ValidOps (m.apply op) ops

/-! ## Basic facts about grid access -/

/-- A `getD _ 0` read of a value-bounded list is bounded. -/
theorem getD_le {b : Nat} (l : List Nat) (i : Nat) (h : ∀ v ∈ l, v ≤ b) :
    l.getD i 0 ≤ b := by
  rw [List.getD_eq_getElem?_getD]
  cases hv : l[i]? with
  | none => simp
  | some v => exact h v (List.getElem?_mem hv)

/-- Any read of a grid with bounded cells is bounded. -/
theorem getCell_le (m : Model) (h : m.CellsBounded) (row col : Nat) :
    getCell m.cell_states row col ≤ m.live_state := by
  unfold getCell
  rw [List.getD_eq_getElem?_getD (l := m.cell_states)]
  cases hv : m.cell_states[row]? with
  | none => simp [List.getD]
  | some r =>
    exact getD_le r col (h r (List.getElem?_mem hv))

/-- Reading an in-range cell of a grid built by mapping over
`range R x range C`. -/
theorem getCell_rangeMap (R C : Nat) (f : Nat → Nat → Nat) {row col : Nat}
    (hr : row < R) (hc : col < C) :
    getCell ((List.range R).map fun r => (List.range C).map fun c => f r c)
      row col = f row col := by
  unfold getCell
  simp only [List.getD_eq_getElem?_getD, List.getElem?_map,
    List.getElem?_range hr, List.getElem?_range hc, Option.map_some',
    Option.getD_some]

/-- Reading any cell of a grid transformed by a zero-preserving pointwise
map. -/
theorem getCell_map0 (f : Nat → Nat) (h0 : f 0 = 0) (g : Grid)
    (row col : Nat) :
    getCell (g.map fun r => r.map f) row col = f (getCell g row col) := by
  unfold getCell
  simp only [List.getD_eq_getElem?_getD, List.getElem?_map]
  cases hv : g[row]? with
  | none => simp [h0]
  | some r =>
    simp only [Option.map_some', Option.getD_some]
    simp only [List.getD_eq_getElem?_getD, List.getElem?_map]
    cases hc : r[col]? with
    | none => simp [h0]
    | some v => simp

/-! ## Claim C10 -/

/-- Claim C10: with wrap on, the 8 offsets are resolved independently, so on
a wrapped 1x1 grid whose single cell holds `live_state`, every offset
resolves back to that same physical cell and the live-neighbor count is 8,
not 0. -/
theorem c10_wrap_counts_self_eight :
    ({ num_rows := 1, num_cols := 1, live_state := 4, wrap := true,
       trace := false, cell_states := [[4]], population := 1,
       total_cells := 1 : Model }).count_live_neighbors 0 0 = 8 := by
  decide

/-! ## Claim C3 -/

/-- The 3x3 wrapped blinker configuration of claim C3, with the three live
cells in row `k` and trace off; `live_state = 2`. -/
def blinker3 (k : Nat) : Model where
  num_rows := 3
  num_cols := 3
  live_state := 2
  wrap := true
  trace := false
  cell_states := (List.range 3).map fun r => if r = k then [2, 2, 2] else [0, 0, 0]
  population := 3
  total_cells := 9

/-- Claim C3 is false on the code: two `step()` calls do NOT return the 3x3
wrapped blinker to its original configuration (concretely with the live row
in the middle and `live_state = 2`, trace off). -/
theorem c3_counterexample :
    (blinker3 1).step.step.cell_states ≠ (blinker3 1).cell_states := by
  decide

/-- Claim C3 amended: under the 3x3 wraparound every cell is adjacent to
every other, so (for each of the three possible live rows) one `step()`
fills the whole grid — every dead cell sees exactly 3 live neighbors and
every live cell 2 — and the second `step()` empties it (every cell then has
8 live neighbors); the blinker is not a period-2 oscillator here. -/
theorem c3_blinker_fills_then_dies :
    ∀ k : Fin 3,
      (blinker3 k).step.cell_states = [[2, 2, 2], [2, 2, 2], [2, 2, 2]] ∧
      (blinker3 k).step.population = 9 ∧
      (blinker3 k).step.step.cell_states = [[0, 0, 0], [0, 0, 0], [0, 0, 0]] ∧
      (blinker3 k).step.step.population = 0 ∧
      (blinker3 k).step.step.cell_states ≠ (blinker3 k).cell_states := by
  decide

/-! ## Claim C4 -/

/-- The Moore offsets as the spec words them: all combinations of
`Δrow, Δcol ∈ {-1, 0, 1}` excluding `(0, 0)`. -/
def specOffsets : List (Int × Int) :=
  ((([-1, 0, 1] : List Int).flatMap fun dr =>
    ([-1, 0, 1] : List Int).map fun dc => (dr, dc)).filter
    fun d => d ≠ (0, 0))

/-- One axis of the Neighbor Counter as the spec words it: an out-of-range
coordinate is skipped when `wrap` is false and reduced modulo the dimension
when `wrap` is true. -/
def specAxis (wrap : Bool) (size : Nat) (x : Int) : Option Int :=
  if 0 ≤ x ∧ x < (size : Int) then some x
  else if wrap then some (x % (size : Int))
  else none

/-- The Neighbor Counter as the spec words it: a neighbor counts iff both
axes resolve and the resolved cell value equals `live_state` exactly. -/
def specNeighborCount (m : Model) (row col : Nat) : Nat :=
  specOffsets.countP fun d =>
    match specAxis m.wrap m.num_rows ((row : Int) + d.1),
          specAxis m.wrap m.num_cols ((col : Int) + d.2) with
    | some nr, some nc =>
        getCell m.cell_states nr.toNat nc.toNat == m.live_state
    | _, _ => false

/-- The source's axis resolution agrees with the spec's (the source takes
`toNat` eagerly, the spec at the final lookup). -/
theorem resolveAxis_eq_spec (w : Bool) (s : Nat) (x : Int) :
    resolveAxis w s x = (specAxis w s x).map Int.toNat := by
  unfold resolveAxis specAxis
  split
  · rfl
  · split
    · rfl
    · rfl

/-- Claim C4: the neighbor counter resolves row and column independently —
skipping an out-of-range axis without wrap, reducing it by the (always
non-negative, in-range) Euclidean modulus with wrap — and counts a resolved
neighbor iff its value equals `live_state` exactly; in particular, on a 5x5
grid with live cells exactly at `(0,0)` and `(4,4)`, the count at `(0,0)`
is 1 with wrap and 0 without. -/
theorem c4_neighbor_counter :
    (∀ (m : Model) (row col : Nat),
      m.count_live_neighbors row col = specNeighborCount m row col) ∧
    (∀ (w : Bool) (s : Nat) (x y : Int), 0 < s → specAxis w s x = some y →
      0 ≤ y ∧ y < (s : Int)) ∧
    ({ num_rows := 5, num_cols := 5, live_state := 7, wrap := true,
       trace := false,
       cell_states := [[7, 0, 0, 0, 0], [0, 0, 0, 0, 0], [0, 0, 0, 0, 0],
         [0, 0, 0, 0, 0], [0, 0, 0, 0, 7]],
       population := 2, total_cells := 25 : Model }).count_live_neighbors
        0 0 = 1 ∧
    ({ num_rows := 5, num_cols := 5, live_state := 7, wrap := false,
       trace := false,
       cell_states := [[7, 0, 0, 0, 0], [0, 0, 0, 0, 0], [0, 0, 0, 0, 0],
         [0, 0, 0, 0, 0], [0, 0, 0, 0, 7]],
       population := 2, total_cells := 25 : Model }).count_live_neighbors
        0 0 = 0 := by
  refine ⟨fun m row col => ?_, fun w s x y hs hy => ?_, by decide, by decide⟩
  · unfold Model.count_live_neighbors specNeighborCount
    rw [show specOffsets = neighbor_offsets from rfl]
    apply List.countP_congr
    intro d _
    rw [resolveAxis_eq_spec, resolveAxis_eq_spec]
    cases specAxis m.wrap m.num_rows ((row : Int) + d.1) <;>
      cases specAxis m.wrap m.num_cols ((col : Int) + d.2) <;> simp
  · unfold specAxis at hy
    split at hy
    · rename_i hin
      cases hy
      exact hin
    · split at hy
      · cases hy
        constructor
        · exact Int.emod_nonneg x (by exact_mod_cast Nat.pos_iff_ne_zero.mp hs)
        · exact Int.emod_lt_of_pos x (by exact_mod_cast hs)
      · cases hy

/-- Witness for C4: the wrap reduction of coordinate `-1` against dimension
5 lands on the in-range, non-negative coordinate 4. -/
theorem c4_neighbor_counter_witness :
    (0 : Int) ≤ 4 ∧ (4 : Int) < (5 : Nat) :=
  c4_neighbor_counter.2.1 true 5 (-1) 4 (by decide) (by decide)

/-! ## Claims C2 and C5 -/

/-- An in-range cell of the post-step grid holds exactly the value the
step rule computes from the pre-step grid. -/
theorem getCell_step (m : Model) {row col : Nat} (hr : row < m.num_rows)
    (hc : col < m.num_cols) :
    getCell m.step.cell_states row col = m.step_cell row col :=
  getCell_rangeMap m.num_rows m.num_cols m.step_cell hr hc

/-- Claim C2: `step()` computes each in-range cell of the next generation
from the pre-step grid only (as the value of the pure per-cell rule
`step_cell` over the pre-step state), and that cell equals `live_state`
iff the cell's current value equals `live_state` and its live-neighbor
count is 2 or 3, or its current value is below `live_state` and the count
is exactly 3. -/
theorem c2_step_rule (m : Model) (hb : m.CellsBounded)
    (hls : 1 < m.live_state) (row col : Nat) (hr : row < m.num_rows)
    (hc : col < m.num_cols) :
    getCell m.step.cell_states row col = m.step_cell row col ∧
    (getCell m.step.cell_states row col = m.live_state ↔
      (getCell m.cell_states row col = m.live_state ∧
        (m.count_live_neighbors row col = 2 ∨
          m.count_live_neighbors row col = 3)) ∨
      (getCell m.cell_states row col < m.live_state ∧
        m.count_live_neighbors row col = 3)) := by
  refine ⟨getCell_step m hr hc, ?_⟩
  rw [getCell_step m hr hc]
  have hcs : getCell m.cell_states row col ≤ m.live_state := getCell_le m hb row col
  unfold Model.step_cell
  split
  · rename_i h
    unfold Model.step_alive at h
    constructor
    · intro _
      rcases h with ⟨he, h2, h3⟩ | ⟨he, h3⟩
      · exact Or.inl ⟨he, by omega⟩
      · exact Or.inr ⟨he, h3⟩
    · intro _
      rfl
  · rename_i h
    unfold Model.step_alive at h
    constructor
    · intro hv
      exfalso
      split at hv
      · rename_i htr
        have h1 : max (getCell m.cell_states row col - 1) 1 < m.live_state :=
          Nat.max_lt.mpr ⟨by omega, hls⟩
        omega
      · omega
    · intro hrule
      exfalso
      apply h
      rcases hrule with ⟨he, h23⟩ | ⟨he, h3⟩
      · exact Or.inl ⟨he, by omega⟩
      · exact Or.inr ⟨he, h3⟩

/-- A concrete instance for the step rule: a lone live corner cell (value
4) with one live neighbor, `live_state = 4`, on a 2x2 non-wrapped grid. -/
def stepProbe : Model where
  num_rows := 2
  num_cols := 2
  live_state := 4
  wrap := false
  trace := true
  cell_states := [[4, 4], [0, 0]]
  population := 2
  total_cells := 4

/-- Witness for C2 at the concrete model `stepProbe`. -/
theorem c2_step_rule_witness :
    stepProbe.CellsBounded ∧ 1 < stepProbe.live_state ∧
    (getCell stepProbe.step.cell_states 0 0 = stepProbe.step_cell 0 0 ∧
      (getCell stepProbe.step.cell_states 0 0 = stepProbe.live_state ↔
        (getCell stepProbe.cell_states 0 0 = stepProbe.live_state ∧
          (stepProbe.count_live_neighbors 0 0 = 2 ∨
            stepProbe.count_live_neighbors 0 0 = 3)) ∨
        (getCell stepProbe.cell_states 0 0 < stepProbe.live_state ∧
          stepProbe.count_live_neighbors 0 0 = 3))) :=
  ⟨by decide, by decide,
    c2_step_rule stepProbe (by decide) (by decide) 0 0 (by decide) (by decide)⟩

/-- Claim C5: for an in-range cell not made live by the birth/survival rule
and currently nonzero, with trace on the next value is
`max(current - 1, 1)` — in particular never `0`, so a cell cannot reach
`0` through decay alone — and with trace off the next value is `0`. -/
theorem c5_fade_rule (m : Model) (row col : Nat) (hr : row < m.num_rows)
    (hc : col < m.num_cols) (hna : ¬ m.step_alive row col)
    (hnz : getCell m.cell_states row col ≠ 0) :
    (m.trace = true →
      getCell m.step.cell_states row col =
        max (getCell m.cell_states row col - 1) 1 ∧
      getCell m.step.cell_states row col ≠ 0) ∧
    (m.trace = false → getCell m.step.cell_states row col = 0) := by
  rw [getCell_step m hr hc]
  unfold Model.step_cell
  rw [if_neg hna]
  constructor
  · intro htr
    rw [if_pos ⟨by rw [htr], hnz⟩]
    exact ⟨rfl, by omega⟩
  · intro htr
    rw [if_neg]
    rintro ⟨h1, -⟩
    rw [htr] at h1
    cases h1

/-- A dying cell under trace: a lone live cell (value 4, `live_state = 4`)
with no live neighbors on a 1x1 non-wrapped grid. -/
def fadeProbe : Model where
  num_rows := 1
  num_cols := 1
  live_state := 4
  wrap := false
  trace := true
  cell_states := [[4]]
  population := 1
  total_cells := 1

/-- Witness for C5 at the concrete model `fadeProbe` (the dying cell fades
from 4 to 3). -/
theorem c5_fade_rule_witness :
    (¬ fadeProbe.step_alive 0 0) ∧ getCell fadeProbe.cell_states 0 0 ≠ 0 ∧
    ((fadeProbe.trace = true →
      getCell fadeProbe.step.cell_states 0 0 =
        max (getCell fadeProbe.cell_states 0 0 - 1) 1 ∧
      getCell fadeProbe.step.cell_states 0 0 ≠ 0) ∧
    (fadeProbe.trace = false →
      getCell fadeProbe.step.cell_states 0 0 = 0)) :=
  ⟨by decide, by decide,
    c5_fade_rule fadeProbe 0 0 (by decide) (by decide) (by decide) (by decide)⟩

/-! ## Claim C7 -/

/-- Claim C7: called with trace on, `toggle_trace()` flips `trace` to
false, forces every strictly-intermediate cell value to `0`, leaves cells
equal to `live_state` or `0` unchanged, and leaves `population`
unchanged. -/
theorem c7_toggle_trace_collapse (m : Model) (h : m.trace = true) :
    m.toggle_trace.trace = false ∧
    m.toggle_trace.population = m.population ∧
    ∀ row col : Nat,
      (0 < getCell m.cell_states row col ∧
        getCell m.cell_states row col < m.live_state →
        getCell m.toggle_trace.cell_states row col = 0) ∧
      ((getCell m.cell_states row col = m.live_state ∨
        getCell m.cell_states row col = 0) →
        getCell m.toggle_trace.cell_states row col =
          getCell m.cell_states row col) := by
  have hts : m.toggle_trace =
      { m with
        trace := false
        cell_states := m.cell_states.map fun row => row.map fun v =>
          if v < m.live_state then 0 else v } := by
    unfold Model.toggle_trace
    rw [if_pos h]
  rw [hts]
  refine ⟨rfl, rfl, fun row col => ⟨?_, ?_⟩⟩
  · rintro ⟨-, h2⟩
    rw [getCell_map0 (fun v => if v < m.live_state then 0 else v)
      (ite_self 0) m.cell_states row col]
    simp only [if_pos h2]
  · rintro (he | he) <;>
      rw [getCell_map0 (fun v => if v < m.live_state then 0 else v)
        (ite_self 0) m.cell_states row col] <;>
      rw [he] <;> simp

/-- A grid with a live cell, a cell at the faintest fade value 1, a dead
cell and a mid-fade cell, trace on, `live_state = 4`. -/
def collapseProbe : Model where
  num_rows := 2
  num_cols := 2
  live_state := 4
  wrap := false
  trace := true
  cell_states := [[4, 1], [0, 3]]
  population := 1
  total_cells := 4

/-- Witness for C7 at `collapseProbe`: the cell holding fade value 1 is
immediately set to 0, while `trace` flips and `population` is kept. -/
theorem c7_toggle_trace_collapse_witness :
    collapseProbe.trace = true ∧
    collapseProbe.toggle_trace.trace = false ∧
    collapseProbe.toggle_trace.population = collapseProbe.population ∧
    getCell collapseProbe.toggle_trace.cell_states 0 1 = 0 :=
  ⟨rfl, (c7_toggle_trace_collapse collapseProbe rfl).1,
    (c7_toggle_trace_collapse collapseProbe rfl).2.1,
    ((c7_toggle_trace_collapse collapseProbe rfl).2.2 0 1).1 (by decide)⟩

/-! ## Point updates: facts about `setCell` and `set_cell_state` -/

/-- Reading back a just-written in-range position of `List.set`. -/
theorem getD_set_self {α : Type} (l : List α) (i : Nat) (a d : α)
    (h : i < l.length) : (l.set i a).getD i d = a := by
  rw [List.getD_eq_getElem?_getD, List.getElem?_set, if_pos rfl, if_pos h]
  rfl

/-- `List.set` leaves other positions unchanged. -/
theorem getD_set_ne {α : Type} (l : List α) {i j : Nat} (h : i ≠ j)
    (a d : α) : (l.set i a).getD j d = l.getD j d := by
  rw [List.getD_eq_getElem?_getD, List.getElem?_set, if_neg h,
    ← List.getD_eq_getElem?_getD]

/-- Reading back a just-written in-range cell. -/
theorem getCell_setCell_self (g : Grid) (row col v : Nat)
    (hr : row < g.length) (hc : col < (g.getD row []).length) :
    getCell (setCell g row col v) row col = v := by
  unfold getCell setCell
  rw [getD_set_self g row _ [] hr]
  exact getD_set_self _ col v 0 hc

/-- Any read of a grid after `setCell` returns either the old value at
that position or the written value. -/
theorem getCell_setCell_or (g : Grid) (row col v r c : Nat) :
    getCell (setCell g row col v) r c = getCell g r c ∨
    getCell (setCell g row col v) r c = v := by
  unfold getCell setCell
  by_cases hrow : row = r
  · subst hrow
    by_cases hlen : row < g.length
    · rw [getD_set_self g row _ [] hlen]
      by_cases hcol : col = c
      · subst hcol
        by_cases hclen : col < (g.getD row []).length
        · right
          exact getD_set_self _ col v 0 hclen
        · left
          rw [List.set_eq_of_length_le (Nat.le_of_not_lt hclen)]
      · left
        rw [getD_set_ne _ hcol]
    · left
      rw [List.set_eq_of_length_le (Nat.le_of_not_lt hlen)]
  · left
    rw [getD_set_ne g hrow]

/-- `setCell` keeps the number of rows. -/
theorem setCell_length (g : Grid) (row col v : Nat) :
    (setCell g row col v).length = g.length :=
  List.length_set g row _

/-- `setCell` keeps the width of every row. -/
theorem setCell_rows_length (g : Grid) (row col v C : Nat)
    (h : ∀ r ∈ g, r.length = C) :
    ∀ r ∈ setCell g row col v, r.length = C := by
  unfold setCell
  by_cases hlen : row < g.length
  · intro r hr
    rcases List.mem_or_eq_of_mem_set hr with hm | he
    · exact h r hm
    · subst he
      rw [List.length_set, List.getD_eq_getElem g [] hlen]
      exact h _ (List.getElem_mem hlen)
  · rw [List.set_eq_of_length_le (Nat.le_of_not_lt hlen)]
    exact h

/-- `set_cell_state` changes only the grid and the population. -/
theorem set_cell_state_const (m : Model) (row col : Nat) (s : Bool) :
    (m.set_cell_state row col s).num_rows = m.num_rows ∧
    (m.set_cell_state row col s).num_cols = m.num_cols ∧
    (m.set_cell_state row col s).live_state = m.live_state ∧
    (m.set_cell_state row col s).wrap = m.wrap ∧
    (m.set_cell_state row col s).trace = m.trace ∧
    (m.set_cell_state row col s).total_cells = m.total_cells := by
  unfold Model.set_cell_state
  split
  · exact ⟨rfl, rfl, rfl, rfl, rfl, rfl⟩
  · split
    · exact ⟨rfl, rfl, rfl, rfl, rfl, rfl⟩
    · exact ⟨rfl, rfl, rfl, rfl, rfl, rfl⟩

/-- `set_cell_state` keeps the grid's shape. -/
theorem set_cell_state_shape (m : Model) (row col : Nat) (s : Bool) :
    (m.set_cell_state row col s).cell_states.length =
      m.cell_states.length ∧
    ∀ C, (∀ r ∈ m.cell_states, r.length = C) →
      ∀ r ∈ (m.set_cell_state row col s).cell_states, r.length = C := by
  unfold Model.set_cell_state
  split
  · exact ⟨setCell_length _ _ _ _,
      fun C h => setCell_rows_length _ _ _ _ C h⟩
  · split
    · exact ⟨setCell_length _ _ _ _,
        fun C h => setCell_rows_length _ _ _ _ C h⟩
    · exact ⟨rfl, fun C h => h⟩

/-- Unfolding the `set_cells_state` loop one coordinate at a time. -/
theorem set_cells_state_cons (m : Model) (rc : Nat × Nat)
    (rest : List (Nat × Nat)) (s : Bool) :
    m.set_cells_state (rc :: rest) s =
      (m.set_cell_state rc.1 rc.2 s).set_cells_state rest s := rfl

/-- `set_cells_state` changes only the grid and the population. -/
theorem set_cells_state_const (m : Model) (cells : List (Nat × Nat))
    (s : Bool) :
    (m.set_cells_state cells s).num_rows = m.num_rows ∧
    (m.set_cells_state cells s).num_cols = m.num_cols ∧
    (m.set_cells_state cells s).live_state = m.live_state ∧
    (m.set_cells_state cells s).wrap = m.wrap ∧
    (m.set_cells_state cells s).trace = m.trace ∧
    (m.set_cells_state cells s).total_cells = m.total_cells := by
  induction cells generalizing m with
  | nil => exact ⟨rfl, rfl, rfl, rfl, rfl, rfl⟩
  | cons rc rest ih =>
    rw [set_cells_state_cons]
    have h1 := set_cell_state_const m rc.1 rc.2 s
    have h2 := ih (m.set_cell_state rc.1 rc.2 s)
    exact ⟨h2.1.trans h1.1, h2.2.1.trans h1.2.1, h2.2.2.1.trans h1.2.2.1,
      h2.2.2.2.1.trans h1.2.2.2.1, h2.2.2.2.2.1.trans h1.2.2.2.2.1,
      h2.2.2.2.2.2.trans h1.2.2.2.2.2⟩

/-- A cell already holding the target value of the edit keeps it through
one `set_cell_state`. -/
theorem set_cell_state_keeps_target (m : Model) (row col : Nat) (s : Bool)
    (r c : Nat)
    (h : getCell m.cell_states r c = if s then m.live_state else 0) :
    getCell (m.set_cell_state row col s).cell_states r c =
      if s then m.live_state else 0 := by
  unfold Model.set_cell_state
  split
  · rename_i hcond
    rcases getCell_setCell_or m.cell_states row col m.live_state r c with
      h2 | h2 <;> rw [h2]
    · exact h
    · rw [if_pos hcond.1]
  · split
    · rename_i hcond hcond2
      rcases getCell_setCell_or m.cell_states row col 0 r c with h2 | h2 <;>
        rw [h2]
      · exact h
      · have hs : s = false := by
          cases s
          · rfl
          · exact absurd rfl hcond2.1
        simp [hs]
    · exact h

/-- A cell already holding the target value of the edit keeps it through
the whole `set_cells_state` loop. -/
theorem set_cells_state_keeps_target (m : Model) (cells : List (Nat × Nat))
    (s : Bool) (r c : Nat)
    (h : getCell m.cell_states r c = if s then m.live_state else 0) :
    getCell (m.set_cells_state cells s).cell_states r c =
      if s then m.live_state else 0 := by
  induction cells generalizing m with
  | nil => exact h
  | cons rc rest ih =>
    rw [set_cells_state_cons]
    have hls := (set_cell_state_const m rc.1 rc.2 s).2.2.1
    have h2 := ih (m.set_cell_state rc.1 rc.2 s)
      (by rw [hls]; exact set_cell_state_keeps_target m rc.1 rc.2 s r c h)
    rw [hls] at h2
    exact h2

/-- After one `set_cell_state` on an in-range coordinate, the cell holds
the target value of the edit. -/
theorem set_cell_state_sets_target (m : Model) (row col : Nat) (s : Bool)
    (hr : row < m.cell_states.length)
    (hc : col < (m.cell_states.getD row []).length) :
    getCell (m.set_cell_state row col s).cell_states row col =
      if s then m.live_state else 0 := by
  unfold Model.set_cell_state
  split
  · rename_i hcond
    rw [getCell_setCell_self _ _ _ _ hr hc, if_pos hcond.1]
  · split
    · rename_i hcond hcond2
      rw [getCell_setCell_self _ _ _ _ hr hc]
      have hs : s = false := by
        cases s
        · rfl
        · exact absurd rfl hcond2.1
      simp [hs]
    · rename_i h1 h2
      by_cases hs : s = true
      · have he : getCell m.cell_states row col = m.live_state := by
          by_contra hne
          exact h1 ⟨hs, hne⟩
        simp [hs, he]
      · have he : getCell m.cell_states row col = 0 := by
          by_contra hne
          exact h2 ⟨hs, hne⟩
        simp [hs, he]

/-- After the `set_cells_state` loop, every listed in-range coordinate
holds the target value of the edit. -/
theorem set_cells_state_sets_targets (m : Model)
    (cells : List (Nat × Nat)) (s : Bool)
    (hlen : m.cell_states.length = m.num_rows)
    (hrows : ∀ r ∈ m.cell_states, r.length = m.num_cols)
    (hin : ∀ rc ∈ cells, rc.1 < m.num_rows ∧ rc.2 < m.num_cols) :
    ∀ rc ∈ cells,
      getCell (m.set_cells_state cells s).cell_states rc.1 rc.2 =
        if s then m.live_state else 0 := by
  induction cells generalizing m with
  | nil =>
    intro rc h
    cases h
  | cons rc0 rest ih =>
    intro rc hrc
    rw [set_cells_state_cons]
    have hconst := set_cell_state_const m rc0.1 rc0.2 s
    have hshape := set_cell_state_shape m rc0.1 rc0.2 s
    rcases List.mem_cons.mp hrc with he | hm
    · subst he
      have hr0 : rc.1 < m.cell_states.length := by
        rw [hlen]
        exact (hin rc (List.mem_cons_self rc rest)).1
      have hc0 : rc.2 < (m.cell_states.getD rc.1 []).length := by
        rw [List.getD_eq_getElem m.cell_states [] hr0,
          hrows _ (List.getElem_mem hr0)]
        exact (hin rc (List.mem_cons_self rc rest)).2
      have h1 := set_cell_state_sets_target m rc.1 rc.2 s hr0 hc0
      have h2 := set_cells_state_keeps_target
        (m.set_cell_state rc.1 rc.2 s) rest s rc.1 rc.2
        (by rw [hconst.2.2.1]; exact h1)
      rw [hconst.2.2.1] at h2
      exact h2
    · have h2 := ih (m.set_cell_state rc0.1 rc0.2 s)
        (by rw [hshape.1, hconst.1]; exact hlen)
        (by simp only [hconst.2.1]; exact hshape.2 m.num_cols hrows)
        (by simp only [hconst.1, hconst.2.1]; exact fun rc' h' =>
          hin rc' (List.mem_cons_of_mem rc0 h'))
        rc hm
      rw [hconst.2.2.1] at h2
      exact h2

/-- If every listed coordinate already holds the target value, the
`set_cells_state` loop is the identity. -/
theorem set_cells_state_id (m : Model) (cells : List (Nat × Nat))
    (s : Bool)
    (h : ∀ rc ∈ cells,
      getCell m.cell_states rc.1 rc.2 = if s then m.live_state else 0) :
    m.set_cells_state cells s = m := by
  induction cells with
  | nil => rfl
  | cons rc rest ih =>
    rw [set_cells_state_cons]
    have h0 := h rc (List.mem_cons_self rc rest)
    have hstep : m.set_cell_state rc.1 rc.2 s = m := by
      unfold Model.set_cell_state
      have hA : ¬(s = true ∧
          getCell m.cell_states rc.1 rc.2 ≠ m.live_state) := by
        rintro ⟨hs, hne⟩
        apply hne
        rw [hs] at h0
        simpa using h0
      have hB : ¬(¬s = true ∧ getCell m.cell_states rc.1 rc.2 ≠ 0) := by
        rintro ⟨hs, hne⟩
        apply hne
        have : s = false := by
          cases s
          · rfl
          · exact absurd rfl hs
        rw [this] at h0
        simpa using h0
      rw [if_neg hA, if_neg hB]
    rw [hstep]
    exact ih fun rc' h' => h rc' (List.mem_cons_of_mem rc h')

/-! ## Claim C8 -/

/-- Claim C8: `set_cells_state` is idempotent — applying it twice with the
same in-range coordinates and the same `alive` value yields exactly the
same model (grid and population) as applying it once. -/
theorem c8_set_cells_state_idempotent (m : Model)
    (cells : List (Nat × Nat)) (state : Bool)
    (hlen : m.cell_states.length = m.num_rows)
    (hrows : ∀ r ∈ m.cell_states, r.length = m.num_cols)
    (hin : ∀ rc ∈ cells, rc.1 < m.num_rows ∧ rc.2 < m.num_cols) :
    (m.set_cells_state cells state).set_cells_state cells state =
      m.set_cells_state cells state := by
  apply set_cells_state_id
  intro rc hm
  rw [(set_cells_state_const m cells state).2.2.1]
  exact set_cells_state_sets_targets m cells state hlen hrows hin rc hm

/-- Witness for C8: a 3x3 grid edited twice at the coordinates
`[(0,0), (1,2), (0,0)]` (with a duplicate) ends identical to the
once-edited grid. -/
theorem c8_set_cells_state_idempotent_witness :
    (Model.init 3 3 5 false true).cell_states.length =
      (Model.init 3 3 5 false true).num_rows ∧
    (∀ r ∈ (Model.init 3 3 5 false true).cell_states,
      r.length = (Model.init 3 3 5 false true).num_cols) ∧
    (((Model.init 3 3 5 false true).set_cells_state
        [(0, 0), (1, 2), (0, 0)] true).set_cells_state
        [(0, 0), (1, 2), (0, 0)] true =
      (Model.init 3 3 5 false true).set_cells_state
        [(0, 0), (1, 2), (0, 0)] true) :=
  ⟨by decide, by decide,
    c8_set_cells_state_idempotent (Model.init 3 3 5 false true)
      [(0, 0), (1, 2), (0, 0)] true (by decide) (by decide) (by decide)⟩

/-! ## Counting live cells -/

/-- A pointwise sum of two per-row counts distributes over the grid sum. -/
theorem sum_map_add {α : Type} (f g : α → Nat) (l : List α) :
    (l.map fun x => f x + g x).sum = (l.map f).sum + (l.map g).sum := by
  induction l with
  | nil => rfl
  | cons a l ih =>
    simp only [List.map_cons, List.sum_cons, ih]
    omega

/-- An all-dead row contributes no live cells (`ls ≠ 0`). -/
theorem count_replicate_zero {ls : Nat} (h : ls ≠ 0) (n : Nat) :
    (List.replicate n (0 : Nat)).count ls = 0 := by
  rw [List.count_replicate,
    if_neg (by simp only [beq_iff_eq]; omega)]

/-- `liveCount` distributes over row concatenation. -/
theorem liveCount_append (ls : Nat) (g1 g2 : Grid) :
    liveCount ls (g1 ++ g2) = liveCount ls g1 + liveCount ls g2 := by
  unfold liveCount
  rw [List.map_append, List.sum_append]

/-- All-dead rows contribute no live cells (`ls ≠ 0`). -/
theorem liveCount_replicate_zero {ls : Nat} (h : ls ≠ 0) (k C : Nat) :
    liveCount ls (List.replicate k (List.replicate C 0)) = 0 := by
  unfold liveCount
  apply List.sum_eq_zero
  intro x hx
  rcases List.mem_map.mp hx with ⟨row, hrow, hval⟩
  rw [← hval, (List.mem_replicate.mp hrow).2]
  exact count_replicate_zero h C

/-- `liveCount` splits at a row boundary. -/
theorem liveCount_take_drop (ls n : Nat) (g : Grid) :
    liveCount ls (g.take n) + liveCount ls (g.drop n) = liveCount ls g := by
  rw [← liveCount_append, List.take_append_drop]

/-- A row's count splits at a column boundary. -/
theorem count_take_drop (ls n : Nat) (row : List Nat) :
    (row.take n).count ls + (row.drop n).count ls = row.count ls := by
  rw [← List.count_append, List.take_append_drop]

/-- `liveCount` of a grid built by mapping over `range R x range C`. -/
theorem liveCount_rangeMap (ls R C : Nat) (f : Nat → Nat → Nat) :
    liveCount ls
        ((List.range R).map fun r => (List.range C).map fun c => f r c) =
      ((List.range R).map fun r =>
        (List.range C).countP fun c => f r c == ls).sum := by
  unfold liveCount
  rw [List.map_map]
  apply congrArg
  apply List.map_congr_left
  intro r _
  simp only [Function.comp]
  rw [List.count_eq_countP, List.countP_map]
  rfl

/-! ## The two phases of `adjust_grid_size` -/

/-- The row phase yields a grid of `new_num_rows` rows, all of the
original width. -/
theorem adjustRows_shape (ls oldR C newR : Nat) (g : Grid) (pop : Int)
    (hlen : g.length = oldR) (hrows : ∀ r ∈ g, r.length = C) :
    (adjustRows ls oldR C newR g pop).1.length = newR ∧
    ∀ r ∈ (adjustRows ls oldR C newR g pop).1, r.length = C := by
  unfold adjustRows
  split
  · rename_i hlt
    constructor
    · simp only [List.length_append, List.length_replicate, hlen]
      omega
    · intro r hr
      rcases List.mem_append.mp hr with hm | hm
      · exact hrows r hm
      · rw [(List.mem_replicate.mp hm).2]
        exact List.length_replicate _ _
  · split
    · rename_i hge hlt
      constructor
      · simp only [List.length_take, hlen]
        omega
      · exact fun r hr => hrows r (List.take_subset _ _ hr)
    · rename_i hge hge2
      refine ⟨?_, hrows⟩
      show g.length = newR
      omega

/-- Row-phase population bookkeeping: the new population is the old one
minus the live cells of the dropped rows (none when growing or equal). -/
theorem adjustRows_pop (ls oldR C newR : Nat) (g : Grid) (pop : Int)
    (hlen : g.length = oldR) :
    (adjustRows ls oldR C newR g pop).2 =
      pop - (liveCount ls (g.drop newR) : Int) := by
  unfold adjustRows
  split
  · rw [List.drop_eq_nil_of_le (by omega)]
    simp [liveCount]
  · split
    · rfl
    · rw [List.drop_eq_nil_of_le (by omega)]
      simp [liveCount]

/-- Row-phase live-cell bookkeeping: the surviving grid plus the dropped
rows carry exactly the original live cells. -/
theorem adjustRows_liveCount (ls oldR C newR : Nat) (g : Grid) (pop : Int)
    (hlen : g.length = oldR) (hls : ls ≠ 0) :
    liveCount ls (adjustRows ls oldR C newR g pop).1 +
      liveCount ls (g.drop newR) = liveCount ls g := by
  unfold adjustRows
  split
  · rw [List.drop_eq_nil_of_le (by omega), liveCount_append,
      liveCount_replicate_zero hls]
    simp [liveCount]
  · split
    · exact liveCount_take_drop ls newR g
    · rw [List.drop_eq_nil_of_le (by omega)]
      simp [liveCount]

/-- The dropped-column scan over the row-adjusted grid equals the same
scan over the surviving original rows: appended rows are all dead and the
equal-size case keeps the grid. -/
theorem adjustRows_dropped_cols (ls oldR C newR nc : Nat) (g : Grid)
    (pop : Int) (hlen : g.length = oldR) (hls : ls ≠ 0) :
    ((adjustRows ls oldR C newR g pop).1.map fun row =>
      (row.drop nc).count ls).sum =
    ((g.take newR).map fun row => (row.drop nc).count ls).sum := by
  unfold adjustRows
  split
  · rename_i hlt
    rw [List.take_of_length_le (by omega), List.map_append,
      List.sum_append]
    have hz : ((List.replicate (newR - oldR) (List.replicate C 0)).map
        fun row => (row.drop nc).count ls).sum = 0 := by
      apply List.sum_eq_zero
      intro x hx
      rcases List.mem_map.mp hx with ⟨row, hrow, hval⟩
      rw [← hval, (List.mem_replicate.mp hrow).2, List.drop_replicate]
      exact count_replicate_zero hls _
    rw [hz]
    omega
  · split
    · rfl
    · rw [List.take_of_length_le (by omega)]

/-- Row-phase cell values: rows surviving from the old grid are unchanged
and appended rows are all dead. -/
theorem adjustRows_rows (ls oldR C newR : Nat) (g : Grid) (pop : Int)
    (hlen : g.length = oldR) :
    (∀ r : Nat, r < newR → r < oldR →
      ((adjustRows ls oldR C newR g pop).1)[r]? = g[r]?) ∧
    (∀ r : Nat, oldR ≤ r → r < newR →
      ((adjustRows ls oldR C newR g pop).1)[r]? =
        some (List.replicate C 0)) := by
  unfold adjustRows
  split
  · rename_i hlt
    constructor
    · intro r h1 h2
      rw [List.getElem?_append, if_pos (by omega)]
    · intro r h1 h2
      rw [List.getElem?_append, if_neg (by omega),
        List.getElem?_replicate, if_pos (by omega)]
  · split
    · rename_i hge hlt
      constructor
      · intro r h1 h2
        rw [List.getElem?_take, if_pos h1]
      · intro r h1 h2
        omega
    · rename_i hge hge2
      exact ⟨fun r h1 h2 => rfl, fun r h1 h2 => by omega⟩

/-- The column phase keeps the number of rows and yields rows of width
`new_num_cols`. -/
theorem adjustCols_shape (ls oldC newC : Nat) (g : Grid) (pop : Int)
    (hrows : ∀ r ∈ g, r.length = oldC) :
    (adjustCols ls oldC newC g pop).1.length = g.length ∧
    ∀ r ∈ (adjustCols ls oldC newC g pop).1, r.length = newC := by
  unfold adjustCols
  split
  · rename_i hlt
    refine ⟨List.length_map _ _, fun r hr => ?_⟩
    rcases List.mem_map.mp hr with ⟨row, hrow, hval⟩
    rw [← hval]
    simp only [List.length_append, List.length_replicate, hrows row hrow]
    omega
  · split
    · rename_i hge hlt
      refine ⟨List.length_map _ _, fun r hr => ?_⟩
      rcases List.mem_map.mp hr with ⟨row, hrow, hval⟩
      rw [← hval]
      simp only [List.length_take, hrows row hrow]
      omega
    · rename_i hge hge2
      refine ⟨rfl, fun r hr => ?_⟩
      rw [hrows r hr]
      omega

/-- Column-phase population bookkeeping: the new population is the old one
minus the live cells of the dropped column segments (none when growing or
equal). -/
theorem adjustCols_pop (ls oldC newC : Nat) (g : Grid) (pop : Int)
    (hrows : ∀ r ∈ g, r.length = oldC) :
    (adjustCols ls oldC newC g pop).2 =
      pop - (((g.map fun row =>
        (row.drop newC).count ls).sum : Nat) : Int) := by
  have hz : oldC ≤ newC →
      (g.map fun row => (row.drop newC).count ls).sum = 0 := by
    intro hle
    apply List.sum_eq_zero
    intro x hx
    rcases List.mem_map.mp hx with ⟨row, hrow, hval⟩
    rw [← hval, List.drop_eq_nil_of_le (by rw [hrows row hrow]; omega)]
    rfl
  unfold adjustCols
  split
  · rename_i hlt
    rw [hz (by omega)]
    simp
  · split
    · rfl
    · rename_i h1 h2
      rw [hz (by omega)]
      simp

/-- Column-phase live-cell bookkeeping: the truncated grid plus the
dropped column segments carry exactly the live cells of the input grid. -/
theorem adjustCols_liveCount (ls oldC newC : Nat) (g : Grid) (pop : Int)
    (hrows : ∀ r ∈ g, r.length = oldC) (hls : ls ≠ 0) :
    liveCount ls (adjustCols ls oldC newC g pop).1 +
      (g.map fun row => (row.drop newC).count ls).sum =
    liveCount ls g := by
  have hz : oldC ≤ newC →
      (g.map fun row => (row.drop newC).count ls).sum = 0 := by
    intro hle
    apply List.sum_eq_zero
    intro x hx
    rcases List.mem_map.mp hx with ⟨row, hrow, hval⟩
    rw [← hval, List.drop_eq_nil_of_le (by rw [hrows row hrow]; omega)]
    rfl
  unfold adjustCols
  split
  · rename_i hlt
    rw [hz (by omega)]
    unfold liveCount
    rw [List.map_map]
    have : ∀ row ∈ g,
        ((fun row => row.count ls) ∘ fun row =>
          row ++ List.replicate (newC - oldC) 0) row = row.count ls := by
      intro row hrow
      simp only [Function.comp]
      rw [List.count_append, count_replicate_zero hls]
      omega
    rw [List.map_congr_left this]
    simp
  · split
    · rename_i hge hlt
      unfold liveCount
      rw [List.map_map]
      have : (g.map ((fun row => row.count ls) ∘ fun row =>
          row.take newC)) = g.map fun row => (row.take newC).count ls := rfl
      rw [this, ← sum_map_add]
      apply congrArg
      apply List.map_congr_left
      intro row _
      exact count_take_drop ls newC row
    · rename_i h1 h2
      rw [hz (by omega)]
      show liveCount ls g + 0 = liveCount ls g
      omega

/-- Column-phase cell values: surviving column positions are unchanged,
added positions are dead. -/
theorem adjustCols_cells (ls oldC newC : Nat) (g : Grid) (pop : Int)
    (hrows : ∀ r ∈ g, r.length = oldC) :
    (∀ r c : Nat, c < newC → c < oldC →
      getCell (adjustCols ls oldC newC g pop).1 r c = getCell g r c) ∧
    (∀ r c : Nat, oldC ≤ c → c < newC →
      getCell (adjustCols ls oldC newC g pop).1 r c = 0) := by
  unfold adjustCols
  split
  · rename_i hlt
    constructor
    · intro r c h1 h2
      unfold getCell
      simp only [List.getD_eq_getElem?_getD, List.getElem?_map]
      cases hv : g[r]? with
      | none => rfl
      | some row =>
        have hlen2 : row.length = oldC := hrows row (List.getElem?_mem hv)
        simp only [Option.map_some', Option.getD_some,
          List.getD_eq_getElem?_getD, List.getElem?_append]
        rw [if_pos (show c < row.length by omega)]
    · intro r c h1 h2
      unfold getCell
      simp only [List.getD_eq_getElem?_getD, List.getElem?_map]
      cases hv : g[r]? with
      | none => rfl
      | some row =>
        have hlen2 : row.length = oldC := hrows row (List.getElem?_mem hv)
        simp only [Option.map_some', Option.getD_some,
          List.getD_eq_getElem?_getD, List.getElem?_append]
        rw [if_neg (show ¬ c < row.length by omega),
          List.getElem?_replicate,
          if_pos (show c - row.length < newC - oldC by omega)]
        rfl
  · split
    · rename_i hge hlt
      constructor
      · intro r c h1 h2
        unfold getCell
        simp only [List.getD_eq_getElem?_getD, List.getElem?_map]
        cases hv : g[r]? with
        | none => rfl
        | some row =>
          simp only [Option.map_some', Option.getD_some]
          simp only [List.getD_eq_getElem?_getD, List.getElem?_take,
            if_pos h1]
      · intro r c h1 h2
        omega
    · rename_i hge hge2
      exact ⟨fun r c h1 h2 => rfl, fun r c h1 h2 => by omega⟩

/-! ## `adjust_grid_size` at the model level -/

/-- The number of live cells among those dropped by
`adjust_grid_size(new_num_rows, new_num_cols)`: every live cell of a
dropped row plus every live cell of the dropped tail of a surviving row —
each dropped cell inspected exactly once. -/
def droppedLive (m : Model) (new_num_rows new_num_cols : Nat) : Nat :=
  liveCount m.live_state (m.cell_states.drop new_num_rows) +
  ((m.cell_states.take new_num_rows).map fun row =>
    (row.drop new_num_cols).count m.live_state).sum

/-- `adjust_grid_size` rewrites only the dimensions, the grid, the
population and `total_cells`. -/
theorem adjust_grid_size_fields (m : Model) (nr nc : Nat) :
    (m.adjust_grid_size nr nc).num_rows = nr ∧
    (m.adjust_grid_size nr nc).num_cols = nc ∧
    (m.adjust_grid_size nr nc).live_state = m.live_state ∧
    (m.adjust_grid_size nr nc).wrap = m.wrap ∧
    (m.adjust_grid_size nr nc).trace = m.trace ∧
    (m.adjust_grid_size nr nc).total_cells = nr * nc :=
  ⟨rfl, rfl, rfl, rfl, rfl, rfl⟩

/-- The grid and population of `adjust_grid_size` are the column phase
applied after the row phase. -/
theorem adjust_grid_size_eq (m : Model) (nr nc : Nat) :
    (m.adjust_grid_size nr nc).cell_states =
      (adjustCols m.live_state m.num_cols nc
        (adjustRows m.live_state m.num_rows m.num_cols nr
          m.cell_states m.population).1
        (adjustRows m.live_state m.num_rows m.num_cols nr
          m.cell_states m.population).2).1 ∧
    (m.adjust_grid_size nr nc).population =
      (adjustCols m.live_state m.num_cols nc
        (adjustRows m.live_state m.num_rows m.num_cols nr
          m.cell_states m.population).1
        (adjustRows m.live_state m.num_rows m.num_cols nr
          m.cell_states m.population).2).2 :=
  ⟨rfl, rfl⟩

/-- The resized grid physically matches the new dimensions. -/
theorem adjust_grid_size_shape (m : Model)
    (hlen : m.cell_states.length = m.num_rows)
    (hrows : ∀ r ∈ m.cell_states, r.length = m.num_cols) (nr nc : Nat) :
    (m.adjust_grid_size nr nc).cell_states.length = nr ∧
    ∀ r ∈ (m.adjust_grid_size nr nc).cell_states, r.length = nc := by
  rw [(adjust_grid_size_eq m nr nc).1]
  have h1 := adjustRows_shape m.live_state m.num_rows m.num_cols nr
    m.cell_states m.population hlen hrows
  have h2 := adjustCols_shape m.live_state m.num_cols nc
    (adjustRows m.live_state m.num_rows m.num_cols nr
      m.cell_states m.population).1
    (adjustRows m.live_state m.num_rows m.num_cols nr
      m.cell_states m.population).2 h1.2
  exact ⟨h2.1.trans h1.1, h2.2⟩

/-- The resized population is the old one minus the dropped live cells,
each counted exactly once. -/
theorem adjust_grid_size_pop (m : Model)
    (hlen : m.cell_states.length = m.num_rows)
    (hrows : ∀ r ∈ m.cell_states, r.length = m.num_cols)
    (hls : m.live_state ≠ 0) (nr nc : Nat) :
    (m.adjust_grid_size nr nc).population =
      m.population - (droppedLive m nr nc : Int) := by
  rw [(adjust_grid_size_eq m nr nc).2]
  have h1 := adjustRows_shape m.live_state m.num_rows m.num_cols nr
    m.cell_states m.population hlen hrows
  rw [adjustCols_pop m.live_state m.num_cols nc
    (adjustRows m.live_state m.num_rows m.num_cols nr
      m.cell_states m.population).1
    (adjustRows m.live_state m.num_rows m.num_cols nr
      m.cell_states m.population).2 h1.2]
  rw [adjustRows_pop m.live_state m.num_rows m.num_cols nr
    m.cell_states m.population hlen]
  rw [adjustRows_dropped_cols m.live_state m.num_rows m.num_cols nr nc
    m.cell_states m.population hlen hls]
  unfold droppedLive
  push_cast
  ring

/-- The live cells of the resized grid plus the dropped live cells are
exactly the original live cells. -/
theorem adjust_grid_size_liveCount (m : Model)
    (hlen : m.cell_states.length = m.num_rows)
    (hrows : ∀ r ∈ m.cell_states, r.length = m.num_cols)
    (hls : m.live_state ≠ 0) (nr nc : Nat) :
    liveCount m.live_state (m.adjust_grid_size nr nc).cell_states +
      droppedLive m nr nc = liveCount m.live_state m.cell_states := by
  rw [(adjust_grid_size_eq m nr nc).1]
  have hR := adjustRows_shape m.live_state m.num_rows m.num_cols nr
    m.cell_states m.population hlen hrows
  have h1 := adjustCols_liveCount m.live_state m.num_cols nc
    (adjustRows m.live_state m.num_rows m.num_cols nr
      m.cell_states m.population).1
    (adjustRows m.live_state m.num_rows m.num_cols nr
      m.cell_states m.population).2 hR.2 hls
  have h2 := adjustRows_liveCount m.live_state m.num_rows m.num_cols nr
    m.cell_states m.population hlen hls
  have h3 := adjustRows_dropped_cols m.live_state m.num_rows m.num_cols
    nr nc m.cell_states m.population hlen hls
  unfold droppedLive
  omega

/-- Resizing keeps cell values within bounds. -/
theorem adjustRows_bounded (ls oldR C newR : Nat) (g : Grid) (pop : Int)
    (b : Nat) (h : ∀ r ∈ g, ∀ v ∈ r, v ≤ b) :
    ∀ r ∈ (adjustRows ls oldR C newR g pop).1, ∀ v ∈ r, v ≤ b := by
  unfold adjustRows
  split
  · intro r hr
    rcases List.mem_append.mp hr with hm | hm
    · exact h r hm
    · intro v hv
      rw [(List.mem_replicate.mp hm).2] at hv
      rw [(List.mem_replicate.mp hv).2]
      exact Nat.zero_le b
  · split
    · exact fun r hr => h r (List.take_subset _ _ hr)
    · exact h

/-- Resizing keeps cell values within bounds (column phase). -/
theorem adjustCols_bounded (ls oldC newC : Nat) (g : Grid) (pop : Int)
    (b : Nat) (h : ∀ r ∈ g, ∀ v ∈ r, v ≤ b) :
    ∀ r ∈ (adjustCols ls oldC newC g pop).1, ∀ v ∈ r, v ≤ b := by
  unfold adjustCols
  split
  · intro r hr
    rcases List.mem_map.mp hr with ⟨row, hrow, hval⟩
    intro v hv
    rw [← hval] at hv
    rcases List.mem_append.mp hv with hm | hm
    · exact h row hrow v hm
    · rw [(List.mem_replicate.mp hm).2]
      exact Nat.zero_le b
  · split
    · intro r hr
      rcases List.mem_map.mp hr with ⟨row, hrow, hval⟩
      intro v hv
      rw [← hval] at hv
      exact h row hrow v (List.take_subset _ _ hv)
    · exact h

/-- Resizing keeps cell values within bounds (model level). -/
theorem adjust_grid_size_bounded (m : Model) (hb : m.CellsBounded)
    (nr nc : Nat) : (m.adjust_grid_size nr nc).CellsBounded :=
  adjustCols_bounded m.live_state m.num_cols nc
    (adjustRows m.live_state m.num_rows m.num_cols nr
      m.cell_states m.population).1
    (adjustRows m.live_state m.num_rows m.num_cols nr
      m.cell_states m.population).2 m.live_state
    (adjustRows_bounded m.live_state m.num_rows m.num_cols nr
      m.cell_states m.population m.live_state hb)

/-- Cells valid in both the old and the new dimensions are preserved. -/
theorem adjust_grid_size_getCell_old (m : Model)
    (hlen : m.cell_states.length = m.num_rows)
    (hrows : ∀ r ∈ m.cell_states, r.length = m.num_cols)
    (nr nc r c : Nat) (hr1 : r < m.num_rows) (hr2 : r < nr)
    (hc1 : c < m.num_cols) (hc2 : c < nc) :
    getCell (m.adjust_grid_size nr nc).cell_states r c =
      getCell m.cell_states r c := by
  rw [(adjust_grid_size_eq m nr nc).1]
  have hR := adjustRows_shape m.live_state m.num_rows m.num_cols nr
    m.cell_states m.population hlen hrows
  rw [(adjustCols_cells m.live_state m.num_cols nc
    (adjustRows m.live_state m.num_rows m.num_cols nr
      m.cell_states m.population).1
    (adjustRows m.live_state m.num_rows m.num_cols nr
      m.cell_states m.population).2 hR.2).1 r c hc2 hc1]
  have h2 := (adjustRows_rows m.live_state m.num_rows m.num_cols nr
    m.cell_states m.population hlen).1 r hr2 hr1
  unfold getCell
  simp only [List.getD_eq_getElem?_getD]
  rw [h2]

/-- Newly added cells start dead. -/
theorem adjust_grid_size_getCell_new (m : Model)
    (hlen : m.cell_states.length = m.num_rows)
    (hrows : ∀ r ∈ m.cell_states, r.length = m.num_cols)
    (nr nc r c : Nat) (hr2 : r < nr) (hc2 : c < nc)
    (hout : m.num_rows ≤ r ∨ m.num_cols ≤ c) :
    getCell (m.adjust_grid_size nr nc).cell_states r c = 0 := by
  rw [(adjust_grid_size_eq m nr nc).1]
  have hR := adjustRows_shape m.live_state m.num_rows m.num_cols nr
    m.cell_states m.population hlen hrows
  rcases hout with hro | hco
  · have h2 := (adjustRows_rows m.live_state m.num_rows m.num_cols nr
      m.cell_states m.population hlen).2 r hro hr2
    by_cases hc1 : c < m.num_cols
    · rw [(adjustCols_cells m.live_state m.num_cols nc
        (adjustRows m.live_state m.num_rows m.num_cols nr
          m.cell_states m.population).1
        (adjustRows m.live_state m.num_rows m.num_cols nr
          m.cell_states m.population).2 hR.2).1 r c hc2 hc1]
      unfold getCell
      simp only [List.getD_eq_getElem?_getD]
      rw [h2, Option.getD_some, List.getElem?_replicate]
      split
      · rfl
      · rfl
    · exact (adjustCols_cells m.live_state m.num_cols nc
        (adjustRows m.live_state m.num_rows m.num_cols nr
          m.cell_states m.population).1
        (adjustRows m.live_state m.num_rows m.num_cols nr
          m.cell_states m.population).2 hR.2).2 r c (by omega) hc2
  · exact (adjustCols_cells m.live_state m.num_cols nc
      (adjustRows m.live_state m.num_rows m.num_cols nr
        m.cell_states m.population).1
      (adjustRows m.live_state m.num_rows m.num_cols nr
        m.cell_states m.population).2 hR.2).2 r c hco hc2

/-! ## Claim C6 -/

/-- The 4x4 grid of the C6 example with only cell `(3,3)` alive
(`live_state = 2`). -/
def resizeProbe : Model :=
  (Model.init 4 4 2 true false).set_cells_state [(3, 3)] true

/-- Claim C6: `adjust_grid_size` preserves every cell valid in both the
old and new dimensions, starts newly added cells at 0, decrements the
population exactly once per dropped live cell (so the population
invariant still holds), and sets `total_cells` to the product of the new
dimensions; concretely, shrinking the `resizeProbe` grid to 2x2 drops its
only live cell and growing back to 4x4 yields an all-dead grid. -/
theorem c6_adjust_grid_size (m : Model) (hInv : m.Inv) (nr nc : Nat) :
    ((∀ r c : Nat, r < m.num_rows → r < nr → c < m.num_cols → c < nc →
        getCell (m.adjust_grid_size nr nc).cell_states r c =
          getCell m.cell_states r c) ∧
      (∀ r c : Nat, r < nr → c < nc →
        (m.num_rows ≤ r ∨ m.num_cols ≤ c) →
        getCell (m.adjust_grid_size nr nc).cell_states r c = 0) ∧
      (m.adjust_grid_size nr nc).population =
        m.population - (droppedLive m nr nc : Int) ∧
      (m.adjust_grid_size nr nc).population =
        (liveCount (m.adjust_grid_size nr nc).live_state
          (m.adjust_grid_size nr nc).cell_states : Int) ∧
      (m.adjust_grid_size nr nc).total_cells = nr * nc) ∧
    (resizeProbe.population = 1 ∧
      (resizeProbe.adjust_grid_size 2 2).population = 0 ∧
      (resizeProbe.adjust_grid_size 2 2).cell_states = [[0, 0], [0, 0]] ∧
      ((resizeProbe.adjust_grid_size 2 2).adjust_grid_size 4 4).cell_states
        = [[0, 0, 0, 0], [0, 0, 0, 0], [0, 0, 0, 0], [0, 0, 0, 0]] ∧
      ((resizeProbe.adjust_grid_size 2 2).adjust_grid_size 4 4).population
        = 0) := by
  obtain ⟨⟨hlen, hrows, htot⟩, hpop, hb, hls⟩ := hInv
  have hls0 : m.live_state ≠ 0 := by omega
  refine ⟨⟨?_, ?_, ?_, ?_, (adjust_grid_size_fields m nr nc).2.2.2.2.2⟩,
    by decide, by decide, by decide, by decide, by decide⟩
  · exact fun r c h1 h2 h3 h4 =>
      adjust_grid_size_getCell_old m hlen hrows nr nc r c h1 h2 h3 h4
  · exact fun r c h1 h2 h3 =>
      adjust_grid_size_getCell_new m hlen hrows nr nc r c h1 h2 h3
  · exact adjust_grid_size_pop m hlen hrows hls0 nr nc
  · have h1 := adjust_grid_size_pop m hlen hrows hls0 nr nc
    have h2 := adjust_grid_size_liveCount m hlen hrows hls0 nr nc
    rw [(adjust_grid_size_fields m nr nc).2.2.1]
    omega

/-- Witness for C6 at `resizeProbe` shrunk to 2x2. -/
theorem c6_adjust_grid_size_witness :
    resizeProbe.Inv ∧
    (resizeProbe.adjust_grid_size 2 2).population =
      resizeProbe.population - (droppedLive resizeProbe 2 2 : Int) :=
  ⟨by decide, (c6_adjust_grid_size resizeProbe (by decide) 2 2).1.2.2.1⟩

/-! ## Claim C9 -/

/-- `step` on an empty, zero-row model is the identity. -/
theorem step_of_empty (z : Model) (h0 : z.num_rows = 0)
    (hc : z.cell_states = []) (hp : z.population = 0) : z.step = z := by
  unfold Model.step
  rw [h0]
  simp only [List.range_zero, List.map_nil, List.sum_nil, Nat.cast_zero]
  rw [← hc, ← hp, ← h0]

/-- `clear` on an empty model is the identity. -/
theorem clear_of_empty (z : Model) (hc : z.cell_states = [])
    (hp : z.population = 0) : z.clear = z := by
  unfold Model.clear
  rw [hc]
  simp only [List.map_nil]
  rw [← hc, ← hp]

/-- `randomize` on an empty, zero-row model is the identity. -/
theorem randomize_of_empty (z : Model) (h0 : z.num_rows = 0)
    (hc : z.cell_states = []) (hp : z.population = 0)
    (bits : Nat → Nat → Bool) : z.randomize bits = z := by
  unfold Model.randomize
  rw [h0]
  simp only [List.range_zero, List.map_nil, List.sum_nil, Nat.cast_zero]
  rw [← hc, ← hp, ← h0]

/-- Claim C9: `adjust_grid_size(0, 0)` from any consistent state succeeds
with zero dimensions, an empty grid, `total_cells = 0` and
`population = 0`; afterwards `step()`, `clear()` and `randomize()` are
total and leave the model unchanged (empty grid, population 0). The
engine's only modulus, in the neighbor counter, is never evaluated since
the cell loops are empty, so no division or modulo by zero occurs. -/
theorem c9_zero_size_safe (m : Model) (hInv : m.Inv) :
    ((m.adjust_grid_size 0 0).num_rows = 0 ∧
      (m.adjust_grid_size 0 0).num_cols = 0 ∧
      (m.adjust_grid_size 0 0).total_cells = 0 ∧
      (m.adjust_grid_size 0 0).cell_states = [] ∧
      (m.adjust_grid_size 0 0).population = 0) ∧
    (m.adjust_grid_size 0 0).step = m.adjust_grid_size 0 0 ∧
    (m.adjust_grid_size 0 0).clear = m.adjust_grid_size 0 0 ∧
    ∀ bits : Nat → Nat → Bool,
      (m.adjust_grid_size 0 0).randomize bits = m.adjust_grid_size 0 0 := by
  obtain ⟨⟨hlen, hrows, htot⟩, hpop, hb, hls⟩ := hInv
  have hls0 : m.live_state ≠ 0 := by omega
  have hshape := adjust_grid_size_shape m hlen hrows 0 0
  have hcells : (m.adjust_grid_size 0 0).cell_states = [] :=
    List.length_eq_zero.mp hshape.1
  have hpop2 : (m.adjust_grid_size 0 0).population = 0 := by
    have h1 := adjust_grid_size_pop m hlen hrows hls0 0 0
    have h2 : droppedLive m 0 0 = liveCount m.live_state m.cell_states := by
      unfold droppedLive
      simp [liveCount]
    omega
  refine ⟨⟨rfl, rfl, rfl, hcells, hpop2⟩, ?_, ?_, ?_⟩
  · exact step_of_empty _ rfl hcells hpop2
  · exact clear_of_empty _ hcells hpop2
  · exact fun bits => randomize_of_empty _ rfl hcells hpop2 bits

/-- Witness for C9 at a concrete 2x3 all-dead model. -/
theorem c9_zero_size_safe_witness :
    (Model.init 2 3 4 true false).Inv ∧
    ((Model.init 2 3 4 true false).adjust_grid_size 0 0).population = 0 ∧
    ((Model.init 2 3 4 true false).adjust_grid_size 0 0).step =
      (Model.init 2 3 4 true false).adjust_grid_size 0 0 :=
  ⟨by decide,
    (c9_zero_size_safe (Model.init 2 3 4 true false) (by decide)).1.2.2.2.2,
    (c9_zero_size_safe (Model.init 2 3 4 true false) (by decide)).2.1⟩

/-! ## Point updates and the live count -/

/-- Replacing one element of a list: additive effect on a mapped sum. -/
theorem sum_map_set {α : Type} (f : α → Nat) (l : List α) (i : Nat)
    (a d : α) (h : i < l.length) :
    ((l.set i a).map f).sum + f (l.getD i d) = (l.map f).sum + f a := by
  induction l generalizing i with
  | nil => cases h
  | cons x xs ih =>
    cases i with
    | zero =>
      simp only [List.set_cons_zero, List.map_cons, List.sum_cons,
        List.getD_cons_zero]
      omega
    | succ n =>
      have hn : n < xs.length := Nat.lt_of_succ_lt_succ h
      have hih := ih n hn
      simp only [List.set_cons_succ, List.map_cons, List.sum_cons,
        List.getD_cons_succ]
      omega

/-- Replacing one element of a row: additive effect on the count. -/
theorem count_set (l : List Nat) (i : Nat) (a t : Nat)
    (h : i < l.length) :
    (l.set i a).count t + (if l.getD i 0 = t then 1 else 0) =
      l.count t + (if a = t then 1 else 0) := by
  induction l generalizing i with
  | nil => cases h
  | cons x xs ih =>
    cases i with
    | zero =>
      simp only [List.set_cons_zero, List.count_cons,
        List.getD_cons_zero, beq_iff_eq]
      split <;> split <;> omega
    | succ n =>
      have hn : n < xs.length := Nat.lt_of_succ_lt_succ h
      have hih := ih n hn
      simp only [List.set_cons_succ, List.count_cons,
        List.getD_cons_succ, beq_iff_eq]
      split <;> omega

/-- Writing one in-range cell: additive effect on the live count. -/
theorem liveCount_setCell (g : Grid) (row col v : Nat)
    (hr : row < g.length) (hc : col < (g.getD row []).length) (ls : Nat) :
    liveCount ls (setCell g row col v) +
      (if getCell g row col = ls then 1 else 0) =
    liveCount ls g + (if v = ls then 1 else 0) := by
  unfold liveCount setCell getCell
  have h1 := sum_map_set (fun r => r.count ls) g row
    ((g.getD row []).set col v) [] hr
  have h2 := count_set (g.getD row []) col v ls hc
  dsimp only at h1
  omega

/-- Cell values stay bounded after an in-bounds write of a bounded
value. -/
theorem setCell_bounded (g : Grid) (row col v b : Nat)
    (h : ∀ r ∈ g, ∀ w ∈ r, w ≤ b) (hvb : v ≤ b) :
    ∀ r ∈ setCell g row col v, ∀ w ∈ r, w ≤ b := by
  unfold setCell
  intro r hr
  rcases List.mem_or_eq_of_mem_set hr with hm | he
  · exact h r hm
  · subst he
    intro w hw
    rcases List.mem_or_eq_of_mem_set hw with hm2 | he2
    · by_cases hrow : row < g.length
      · have hmem : g.getD row [] ∈ g := by
          rw [List.getD_eq_getElem g [] hrow]
          exact List.getElem_mem hrow
        exact h _ hmem w hm2
      · rw [List.getD_eq_getElem?_getD,
          List.getElem?_eq_none (by omega)] at hm2
        cases hm2
    · subst he2
      exact hvb

/-! ## Preservation of the engine invariant (Claim C1) -/

/-- The freshly constructed model satisfies the invariant when
`live_state > 1`. -/
theorem init_Inv (R C ls : Nat) (w t : Bool) (hls : 1 < ls) :
    (Model.init R C ls w t).Inv := by
  refine ⟨⟨List.length_replicate R _, ?_, rfl⟩, ?_, ?_, hls⟩
  · intro r hr
    rw [(List.mem_replicate.mp hr).2]
    exact List.length_replicate C 0
  · show (0 : Int) =
      (liveCount ls (List.replicate R (List.replicate C 0)) : Int)
    rw [liveCount_replicate_zero (by omega)]
    rfl
  · intro r hr v hv
    rw [(List.mem_replicate.mp hr).2] at hv
    rw [(List.mem_replicate.mp hv).2]
    exact Nat.zero_le ls

/-- With bounded cells and `live_state > 1`, the per-cell step value is
`live_state` exactly when the birth/survival condition holds (the fade
value is always strictly below `live_state`). -/
theorem step_cell_eq_live_iff (m : Model) (hb : m.CellsBounded)
    (hls : 1 < m.live_state) (r c : Nat) :
    m.step_cell r c = m.live_state ↔ m.step_alive r c := by
  unfold Model.step_cell
  split
  · rename_i h
    exact iff_of_true rfl h
  · rename_i h
    refine iff_of_false ?_ h
    have hcs := getCell_le m hb r c
    split
    · have hmax : max (getCell m.cell_states r c - 1) 1 < m.live_state :=
        Nat.max_lt.mpr ⟨by omega, hls⟩
      omega
    · omega

/-- The per-cell step value stays within bounds. -/
theorem step_cell_le (m : Model) (hb : m.CellsBounded)
    (hls : 1 ≤ m.live_state) (r c : Nat) :
    m.step_cell r c ≤ m.live_state := by
  unfold Model.step_cell
  split
  · exact Nat.le_refl _
  · split
    · have hcs := getCell_le m hb r c
      exact Nat.max_le.mpr ⟨by omega, hls⟩
    · exact Nat.zero_le _

/-- `step` preserves the invariant. -/
theorem step_Inv (m : Model) (h : m.Inv) : m.step.Inv := by
  obtain ⟨⟨hlen, hrows, htot⟩, hpop, hb, hls⟩ := h
  refine ⟨⟨?_, ?_, htot⟩, ?_, ?_, hls⟩
  · show ((List.range m.num_rows).map _).length = m.num_rows
    rw [List.length_map, List.length_range]
  · intro r hr
    rcases List.mem_map.mp hr with ⟨i, hi, hval⟩
    rw [← hval, List.length_map, List.length_range]
    rfl
  · have hN : ((List.range m.num_rows).map fun row =>
        (List.range m.num_cols).countP fun col =>
          decide (m.step_alive row col)).sum =
        liveCount m.live_state ((List.range m.num_rows).map fun row =>
          (List.range m.num_cols).map fun col => m.step_cell row col) := by
      rw [liveCount_rangeMap]
      apply congrArg
      apply List.map_congr_left
      intro r _
      apply List.countP_congr
      intro c _
      simp only [decide_eq_true_iff, beq_iff_eq]
      exact (step_cell_eq_live_iff m hb hls r c).symm
    show (((List.range m.num_rows).map fun row =>
        (List.range m.num_cols).countP fun col =>
          decide (m.step_alive row col)).sum : Int) =
      (liveCount m.live_state ((List.range m.num_rows).map fun row =>
        (List.range m.num_cols).map fun col => m.step_cell row col) : Int)
    exact_mod_cast hN
  · intro r hr v hv
    rcases List.mem_map.mp hr with ⟨i, hi, hval⟩
    rw [← hval] at hv
    rcases List.mem_map.mp hv with ⟨j, hj, hval2⟩
    rw [← hval2]
    exact step_cell_le m hb (by omega) i j

/-- `randomize` preserves the invariant, for every random draw. -/
theorem randomize_Inv (m : Model) (h : m.Inv) (bits : Nat → Nat → Bool) :
    (m.randomize bits).Inv := by
  obtain ⟨⟨hlen, hrows, htot⟩, hpop, hb, hls⟩ := h
  refine ⟨⟨?_, ?_, htot⟩, ?_, ?_, hls⟩
  · show ((List.range m.num_rows).map _).length = m.num_rows
    rw [List.length_map, List.length_range]
  · intro r hr
    rcases List.mem_map.mp hr with ⟨i, hi, hval⟩
    rw [← hval, List.length_map, List.length_range]
    rfl
  · have hN : ((List.range m.num_rows).map fun row =>
        (List.range m.num_cols).countP fun col => bits row col).sum =
        liveCount m.live_state ((List.range m.num_rows).map fun row =>
          (List.range m.num_cols).map fun col =>
            if bits row col then m.live_state else 0) := by
      rw [liveCount_rangeMap]
      apply congrArg
      apply List.map_congr_left
      intro r _
      apply List.countP_congr
      intro c _
      cases hbc : bits r c
      · simp [hbc, beq_iff_eq]
        omega
      · simp [hbc, beq_iff_eq]
    show (((List.range m.num_rows).map fun row =>
        (List.range m.num_cols).countP fun col => bits row col).sum : Int) =
      (liveCount m.live_state ((List.range m.num_rows).map fun row =>
        (List.range m.num_cols).map fun col =>
          if bits row col then m.live_state else 0) : Int)
    exact_mod_cast hN
  · intro r hr v hv
    rcases List.mem_map.mp hr with ⟨i, hi, hval⟩
    rw [← hval] at hv
    rcases List.mem_map.mp hv with ⟨j, hj, hval2⟩
    rw [← hval2]
    split
    · exact Nat.le_refl _
    · exact Nat.zero_le _

/-- `clear` preserves the invariant. -/
theorem clear_Inv (m : Model) (h : m.Inv) : m.clear.Inv := by
  obtain ⟨⟨hlen, hrows, htot⟩, hpop, hb, hls⟩ := h
  refine ⟨⟨?_, ?_, htot⟩, ?_, ?_, hls⟩
  · show (m.cell_states.map _).length = m.num_rows
    rw [List.length_map]
    exact hlen
  · intro r hr
    rcases List.mem_map.mp hr with ⟨row, hrow, hval⟩
    rw [← hval, List.length_map]
    exact hrows row hrow
  · have hN : liveCount m.live_state
        (m.cell_states.map fun row => row.map fun _ => 0) = 0 := by
      unfold liveCount
      apply List.sum_eq_zero
      intro x hx
      rcases List.mem_map.mp hx with ⟨row, hrow, hval⟩
      rcases List.mem_map.mp hrow with ⟨orig, horig, hval2⟩
      rw [← hval, ← hval2, List.count_eq_countP, List.countP_map]
      apply List.countP_eq_zero.mpr
      intro a _
      simp only [Function.comp, beq_iff_eq]
      omega
    show (0 : Int) = (liveCount m.live_state
      (m.cell_states.map fun row => row.map fun _ => 0) : Int)
    rw [hN]
    rfl
  · intro r hr v hv
    rcases List.mem_map.mp hr with ⟨row, hrow, hval⟩
    rw [← hval] at hv
    rcases List.mem_map.mp hv with ⟨w, hw, hval2⟩
    rw [← hval2]
    exact Nat.zero_le _

/-- `toggle_wrap` preserves the invariant. -/
theorem toggle_wrap_Inv (m : Model) (h : m.Inv) : m.toggle_wrap.Inv := h

/-- `toggle_trace` preserves the invariant: live cells are untouched, so
both the live count and `population` are unchanged. -/
theorem toggle_trace_Inv (m : Model) (h : m.Inv) : m.toggle_trace.Inv := by
  obtain ⟨⟨hlen, hrows, htot⟩, hpop, hb, hls⟩ := h
  unfold Model.toggle_trace
  split
  · refine ⟨⟨?_, ?_, htot⟩, ?_, ?_, hls⟩
    · show (m.cell_states.map _).length = m.num_rows
      rw [List.length_map]
      exact hlen
    · intro r hr
      rcases List.mem_map.mp hr with ⟨row, hrow, hval⟩
      rw [← hval, List.length_map]
      exact hrows row hrow
    · show m.population = _
      have hN : liveCount m.live_state (m.cell_states.map fun row =>
          row.map fun v => if v < m.live_state then 0 else v) =
          liveCount m.live_state m.cell_states := by
        unfold liveCount
        rw [List.map_map]
        apply congrArg
        apply List.map_congr_left
        intro row _
        simp only [Function.comp]
        rw [List.count_eq_countP, List.countP_map, List.count_eq_countP]
        apply List.countP_congr
        intro v _
        simp only [Function.comp, beq_iff_eq]
        split
        · rename_i hv
          constructor
          · intro h0
            omega
          · intro hveq
            omega
        · exact Iff.rfl
      rw [hN]
      exact hpop
    · intro r hr v hv
      rcases List.mem_map.mp hr with ⟨row, hrow, hval⟩
      rw [← hval] at hv
      rcases List.mem_map.mp hv with ⟨w, hw, hval2⟩
      rw [← hval2]
      split
      · exact Nat.zero_le _
      · exact hb row hrow w hw
  · exact ⟨⟨hlen, hrows, htot⟩, hpop, hb, hls⟩

/-- One in-range `set_cell_state` preserves the invariant. -/
theorem set_cell_state_Inv (m : Model) (h : m.Inv) (row col : Nat)
    (hr : row < m.num_rows) (hc : col < m.num_cols) (s : Bool) :
    (m.set_cell_state row col s).Inv := by
  obtain ⟨⟨hlen, hrows, htot⟩, hpop, hb, hls⟩ := h
  have hr2 : row < m.cell_states.length := by omega
  have hc2 : col < (m.cell_states.getD row []).length := by
    rw [List.getD_eq_getElem m.cell_states [] hr2,
      hrows _ (List.getElem_mem hr2)]
    exact hc
  unfold Model.set_cell_state
  split
  · rename_i hcond
    refine ⟨⟨?_, ?_, htot⟩, ?_, ?_, hls⟩
    · show (setCell _ _ _ _).length = m.num_rows
      rw [setCell_length]
      exact hlen
    · exact fun r hrr => setCell_rows_length m.cell_states row col
        m.live_state m.num_cols hrows r hrr
    · show m.population + 1 = (liveCount m.live_state
        (setCell m.cell_states row col m.live_state) : Int)
      have hLC := liveCount_setCell m.cell_states row col m.live_state
        hr2 hc2 m.live_state
      rw [if_neg hcond.2, if_pos rfl] at hLC
      omega
    · exact setCell_bounded m.cell_states row col m.live_state
        m.live_state hb (Nat.le_refl _)
  · split
    · rename_i hcond hcond2
      refine ⟨⟨?_, ?_, htot⟩, ?_, ?_, hls⟩
      · show (setCell _ _ _ _).length = m.num_rows
        rw [setCell_length]
        exact hlen
      · exact fun r hrr => setCell_rows_length m.cell_states row col
          0 m.num_cols hrows r hrr
      · have hLC := liveCount_setCell m.cell_states row col 0
          hr2 hc2 m.live_state
        have hz : (if (0 : Nat) = m.live_state then 1 else 0) = 0 :=
          if_neg (by omega)
        rw [hz] at hLC
        show (if getCell m.cell_states row col = m.live_state then
            m.population - 1 else m.population) =
          (liveCount m.live_state (setCell m.cell_states row col 0) : Int)
        by_cases he : getCell m.cell_states row col = m.live_state
        · rw [if_pos he] at hLC ⊢
          omega
        · rw [if_neg he] at hLC ⊢
          omega
      · exact setCell_bounded m.cell_states row col 0
          m.live_state hb (Nat.zero_le _)
    · exact ⟨⟨hlen, hrows, htot⟩, hpop, hb, hls⟩

/-- The `set_cells_state` loop preserves the invariant when every listed
coordinate is in range. -/
theorem set_cells_state_Inv (m : Model) (h : m.Inv)
    (cells : List (Nat × Nat))
    (hin : ∀ rc ∈ cells, rc.1 < m.num_rows ∧ rc.2 < m.num_cols)
    (s : Bool) : (m.set_cells_state cells s).Inv := by
  induction cells generalizing m with
  | nil => exact h
  | cons rc rest ih =>
    rw [set_cells_state_cons]
    have hmem := hin rc (List.mem_cons_self rc rest)
    have hconst := set_cell_state_const m rc.1 rc.2 s
    exact ih (m.set_cell_state rc.1 rc.2 s)
      (set_cell_state_Inv m ⟨⟨h.1.1, h.1.2.1, h.1.2.2⟩, h.2.1, h.2.2.1,
        h.2.2.2⟩ rc.1 rc.2 hmem.1 hmem.2 s)
      (by simp only [hconst.1, hconst.2.1]
          exact fun rc' h' => hin rc' (List.mem_cons_of_mem rc h'))

/-- `adjust_grid_size` preserves the invariant. -/
theorem adjust_grid_size_Inv (m : Model) (h : m.Inv) (nr nc : Nat) :
    (m.adjust_grid_size nr nc).Inv := by
  obtain ⟨⟨hlen, hrows, htot⟩, hpop, hb, hls⟩ := h
  have hls0 : m.live_state ≠ 0 := by omega
  have hshape := adjust_grid_size_shape m hlen hrows nr nc
  refine ⟨⟨hshape.1, hshape.2, rfl⟩, ?_,
    adjust_grid_size_bounded m hb nr nc, hls⟩
  have h1 := adjust_grid_size_pop m hlen hrows hls0 nr nc
  have h2 := adjust_grid_size_liveCount m hlen hrows hls0 nr nc
  rw [h1]
  show m.population - (droppedLive m nr nc : Int) =
    (liveCount m.live_state (m.adjust_grid_size nr nc).cell_states : Int)
  omega

/-- Every valid operation preserves the invariant. -/
theorem apply_Inv (m : Model) (op : Op) (h : m.Inv) (hv : op.Valid m) :
    (m.apply op).Inv := by
  cases op with
  | step => exact step_Inv m h
  | randomize bits => exact randomize_Inv m h bits
  | clear => exact clear_Inv m h
  | set_cells cells s => exact set_cells_state_Inv m h cells hv s
  | toggle_wrap => exact toggle_wrap_Inv m h
  | toggle_trace => exact toggle_trace_Inv m h
  | adjust r c => exact adjust_grid_size_Inv m h r c

/-- The invariant holds after every valid operation sequence. -/
theorem applyAll_Inv (m : Model) (ops : List Op) (h : m.Inv)
    (hv : ValidOps m ops) : (m.applyAll ops).Inv := by
  induction ops generalizing m with
  | nil => exact h
  | cons op ops ih => exact ih (m.apply op) (apply_Inv m op h hv.1) hv.2

instance (m : Model) (op : Op) : Decidable (op.Valid m) :=
  match op with
  | .step => inferInstanceAs (Decidable True)
  | .randomize _ => inferInstanceAs (Decidable True)
  | .clear => inferInstanceAs (Decidable True)
  | .set_cells cells _ =>
      inferInstanceAs
        (Decidable (∀ rc ∈ cells, rc.1 < m.num_rows ∧ rc.2 < m.num_cols))
  | .toggle_wrap => inferInstanceAs (Decidable True)
  | .toggle_trace => inferInstanceAs (Decidable True)
  | .adjust _ _ => inferInstanceAs (Decidable True)

def decValidOps : (m : Model) → (ops : List Op) → Decidable (ValidOps m ops)
  | _, [] => inferInstanceAs (Decidable True)
  | m, op :: ops =>
    haveI : Decidable (ValidOps (m.apply op) ops) :=
      decValidOps (m.apply op) ops
    inferInstanceAs (Decidable (op.Valid m ∧ ValidOps (m.apply op) ops))

instance (m : Model) (ops : List Op) : Decidable (ValidOps m ops) :=
  decValidOps m ops

/-! ## Claim C1 -/

/-- Claim C1: starting from any construction with `live_state > 1`, after
every sequence of engine operations (with in-range `set_cells_state`
coordinates), `population` equals the number of cells holding exactly
`live_state`, and every cell value lies in `[0, live_state]`. -/
theorem c1_population_invariant (num_rows num_cols live_state : Nat)
    (wrap trace : Bool) (hls : 1 < live_state) (ops : List Op)
    (hv : ValidOps (Model.init num_rows num_cols live_state wrap trace)
      ops) :
    ((Model.init num_rows num_cols live_state wrap trace).applyAll
        ops).population =
      (liveCount
        ((Model.init num_rows num_cols live_state wrap trace).applyAll
          ops).live_state
        ((Model.init num_rows num_cols live_state wrap trace).applyAll
          ops).cell_states : Int) ∧
    ∀ row ∈ ((Model.init num_rows num_cols live_state wrap
        trace).applyAll ops).cell_states, ∀ v ∈ row,
      0 ≤ v ∧ v ≤ ((Model.init num_rows num_cols live_state wrap
        trace).applyAll ops).live_state := by
  have h := applyAll_Inv (Model.init num_rows num_cols live_state wrap
    trace) ops (init_Inv num_rows num_cols live_state wrap trace hls) hv
  exact ⟨h.2.1, fun row hrow v hvv =>
    ⟨Nat.zero_le v, h.2.2.1 row hrow v hvv⟩⟩

/-- A concrete operation sequence exercising every operation kind except
the randomizer: an edit, a step, a resize, a trace toggle, a wrap toggle
and a clear. -/
def c1ops : List Op :=
  [Op.set_cells [(0, 0), (1, 1)] true, Op.step, Op.adjust 1 3,
    Op.toggle_trace, Op.toggle_wrap, Op.clear]

/-- Witness for C1 on a 2x2 grid with `live_state = 3` driven through
`c1ops`. -/
theorem c1_population_invariant_witness :
    1 < 3 ∧
    ValidOps (Model.init 2 2 3 true true) c1ops ∧
    ((Model.init 2 2 3 true true).applyAll c1ops).population =
      (liveCount ((Model.init 2 2 3 true true).applyAll c1ops).live_state
        ((Model.init 2 2 3 true true).applyAll c1ops).cell_states : Int) :=
  ⟨by decide, by decide,
    (c1_population_invariant 2 2 3 true true (by decide) c1ops
      (by decide)).1⟩

end GameOfLife
